import Mathlib

/-!
Verification development for the notebook `5-inference-and-validation.ipynb`.

The notebook trains a small classifier on Fashion-MNIST and, per epoch, runs a
validation pass computing an accuracy metric (cell-13) and, in the extended
dropout variant (cell-17), also a loss metric.  A final cell (cell-19) runs
single-example inference.  The external numerical library (tensor math,
autodiff, optimizer) is treated as an abstract collaborator: the model forward
pass is an abstract function producing per-example log-probability rows, the
loss/gradient/step operations are abstract parameters, and `torch.exp` is a
function parameter (instantiated with `Real.exp` where its analytic properties
matter).  Mode-flag and gradient-tracking behaviour is embedded as a small
command language interpreted into a trace of per-batch events.
-/

/-- Model mode flag toggled by the source's `model.train()` / `model.eval()` calls.
A `Classifier()` starts in training mode. -/
inductive Mode where
  | training : Mode
  | evaluation : Mode
deriving DecidableEq, Repr

/-- Which loop a processed minibatch belongs to. -/
inductive Phase where
  | training : Phase
  | validation : Phase
deriving DecidableEq, Repr

/-- Observation recorded when a minibatch is processed: the phase, the model's
mode flag at that moment, and whether gradient tracking is enabled. -/
structure BatchEvent where
  phase : Phase
  mode : Mode
  gradOn : Bool
deriving DecidableEq, Repr

/-- Commands abstracting the mode/gradient control flow of the notebook loops:
`modelEval` is `model.eval()`, `modelTrain` is `model.train()`, `gradOff` /
`gradRestore` mark entering and exiting a `with torch.no_grad():` scope, and
`processBatch` is one iteration of a `for images, labels in loader:` body. -/
inductive Cmd where
  | modelEval : Cmd
  | modelTrain : Cmd
  | gradOff : Cmd
  | gradRestore : Cmd
  | processBatch : Phase → Cmd
deriving DecidableEq, Repr

/-- Interpreter for `Cmd` lists: threads the mode flag and the
gradient-tracking flag, and records one `BatchEvent` per processed batch.
Returns the event trace, the final mode and the final gradient flag. -/
def run : List Cmd → Mode → Bool → List BatchEvent × Mode × Bool
  | [], m, g => ([], m, g)
  | Cmd.modelEval :: rest, _, g => run rest Mode.evaluation g
  | Cmd.modelTrain :: rest, _, g => run rest Mode.training g
  | Cmd.gradOff :: rest, m, _ => run rest m false
  | Cmd.gradRestore :: rest, m, _ => run rest m true
  | Cmd.processBatch ph :: rest, m, g =>
    let r := run rest m g
    (⟨ph, m, g⟩ :: r.1, r.2)

/-- A `with torch.no_grad():` block around `body`: gradient tracking is
disabled on entry and restored on exit. -/
def noGradScope (body : List Cmd) : List Cmd :=
  Cmd.gradOff :: body ++ [Cmd.gradRestore]

/-- The training pass of an epoch: `nTrain` iterations of the training loop
body (`for images, labels in trainloader:`). -/
def trainPassCmds (nTrain : ℕ) : List Cmd :=
  List.replicate nTrain (Cmd.processBatch Phase.training)

/-- One epoch of the cell-13 loop: the training pass, then
`with torch.no_grad():` around the validation loop.  Cell-13 never toggles
the mode flag. -/
def epoch13Cmds (nTrain nValid : ℕ) : List Cmd :=
  trainPassCmds nTrain ++
    noGradScope (List.replicate nValid (Cmd.processBatch Phase.validation))

/-- One epoch of the cell-17 loop: the training pass, then
`with torch.no_grad():` containing `model.eval()`, the validation loop, and
`model.train()`. -/
def epoch17Cmds (nTrain nValid : ℕ) : List Cmd :=
  trainPassCmds nTrain ++
    noGradScope ([Cmd.modelEval] ++
      List.replicate nValid (Cmd.processBatch Phase.validation) ++ [Cmd.modelTrain])

/-- The whole cell-13 run: `epochs` repetitions of the epoch body. -/
def loop13Cmds (epochs nTrain nValid : ℕ) : List Cmd :=
  (List.replicate epochs (epoch13Cmds nTrain nValid)).flatten

/-- The whole cell-17 run: `epochs` repetitions of the epoch body. -/
def loop17Cmds (epochs nTrain nValid : ℕ) : List Cmd :=
  (List.replicate epochs (epoch17Cmds nTrain nValid)).flatten

/-- A minibatch as yielded by a data loader: a list of per-example inputs and
the parallel list of integer class labels. -/
abbrev Batch (ι : Type) := List ι × List ℕ

/-- Index component of `ps.topk(1, dim=1)` applied to one row: the index of
the largest entry, with the first index winning ties. -/
def topk1Class {K : Type} [LinearOrder K] : List K → ℕ
  | [] => 0
  | x :: xs =>
    let j := topk1Class xs
    if x < xs.getD j x then j + 1 else 0

/-- The `top_class` column for a batch: the model's per-example
log-probability row is exponentiated (`ps = torch.exp(model(images))`) and the
top-1 class index is selected per row. -/
def batchTopClasses {ι : Type} (pexp : ℚ → ℚ) (net : ι → List ℚ) (images : List ι) : List ℕ :=
  images.map (fun x => topk1Class ((net x).map pexp))

/-- One batch's accuracy as computed by the source:
`equals = top_class == labels.view(*top_class.shape)` followed by
`torch.mean(equals.type(torch.FloatTensor))` — the number of positions where
the predicted class equals the label, divided by the batch size. -/
def batchAccuracy {ι : Type} (pexp : ℚ → ℚ) (net : ι → List ℚ)
    (images : List ι) (labels : List ℕ) : ℚ :=
  (((batchTopClasses pexp net images).zip labels).countP (fun p => p.1 == p.2) : ℚ) /
    (images.length : ℚ)

/-- `nn.NLLLoss()` with the default mean reduction: the mean over the batch of
the negated log-probability assigned to the true label. -/
def nllLoss {ι : Type} (net : ι → List ℚ) (images : List ι) (labels : List ℕ) : ℚ :=
  ((images.zip labels).map (fun p => -((net p.1).getD p.2 0))).sum / (images.length : ℚ)

/-- Cell-13's `accuracy_accum`: starts at `0` and accumulates
`+= torch.mean(equals...)` over the validation batches. -/
def accuracyAccum13 {ι : Type} (pexp : ℚ → ℚ) (net : ι → List ℚ)
    (batches : List (Batch ι)) : ℚ :=
  batches.foldl (fun acc b => acc + batchAccuracy pexp net b.1 b.2) 0

/-- The value printed by cell-13: `accuracy_accum / len(testloader) * 100`. -/
def printedAccuracy13 {ι : Type} (pexp : ℚ → ℚ) (net : ι → List ℚ)
    (batches : List (Batch ι)) : ℚ :=
  accuracyAccum13 pexp net batches / (batches.length : ℚ) * 100

/-- The epoch accuracy reported by cell-13, as a fraction (the printed value
is this fraction times 100, with a percent sign). -/
def epochAccuracy13 {ι : Type} (pexp : ℚ → ℚ) (net : ι → List ℚ)
    (batches : List (Batch ι)) : ℚ :=
  accuracyAccum13 pexp net batches / (batches.length : ℚ)

/-- One iteration of cell-17's validation loop body acting on the pair
`(accuracy_accum, loss_accum)`: the accuracy term is accumulated with `+=`,
while `loss_accum = criterion(log_ps, labels)` overwrites the previous value. -/
def validStep17 {ι : Type} (pexp : ℚ → ℚ) (net : ι → List ℚ)
    (acc : ℚ × ℚ) (b : Batch ι) : ℚ × ℚ :=
  (acc.1 + batchAccuracy pexp net b.1 b.2, nllLoss net b.1 b.2)

/-- Cell-17's `(accuracy_accum, loss_accum)` after the validation loop, both
initialised to `0`. -/
def validAccums17 {ι : Type} (pexp : ℚ → ℚ) (net : ι → List ℚ)
    (batches : List (Batch ι)) : ℚ × ℚ :=
  batches.foldl (validStep17 pexp net) (0, 0)

/-- The accuracy value printed by cell-17: `accuracy_accum / len(testloader) * 100`. -/
def printedAccuracy17 {ι : Type} (pexp : ℚ → ℚ) (net : ι → List ℚ)
    (batches : List (Batch ι)) : ℚ :=
  (validAccums17 pexp net batches).1 / (batches.length : ℚ) * 100

/-- The loss value printed by cell-17: `loss_accum / len(testloader) * 100`. -/
def printedLoss17 {ι : Type} (pexp : ℚ → ℚ) (net : ι → List ℚ)
    (batches : List (Batch ι)) : ℚ :=
  (validAccums17 pexp net batches).2 / (batches.length : ℚ) * 100

/-- The epoch accuracy reported by cell-17, as a fraction. -/
def epochAccuracy17 {ι : Type} (pexp : ℚ → ℚ) (net : ι → List ℚ)
    (batches : List (Batch ι)) : ℚ :=
  (validAccums17 pexp net batches).1 / (batches.length : ℚ)

/-- `F.log_softmax(z, dim=1)` on one row, with the exponential and logarithm
as function parameters: each entry becomes `z i - log (sum of exp z)`. -/
def log_softmax {K : Type} [Field K] (pexp plog : K → K) (z : List K) : List K :=
  z.map (fun zi => zi - plog ((z.map pexp).sum))

/-- The mutable model object as the loops see it: a mode flag and an abstract
bag of parameters. -/
structure ModelState (P : Type) where
  mode : Mode
  params : P

/-- Cell-17's validation pass as a state transformer on the model: enter the
no-grad scope, `model.eval()`, fold the validation loop body over the batches
with the eval-mode forward pass, `model.train()`.  Returns the accumulator
pair and the resulting model state. -/
def validPass17 {P ι : Type} (pexp : ℚ → ℚ) (fwd : P → Mode → ι → List ℚ)
    (batches : List (Batch ι)) (s : ModelState P) : (ℚ × ℚ) × ModelState P :=
  let s1 : ModelState P := { s with mode := Mode.evaluation }
  let accums := batches.foldl (validStep17 pexp (fwd s1.params s1.mode)) (0, 0)
  let s2 : ModelState P := { s1 with mode := Mode.training }
  (accums, s2)

/-- Cell-19's single-example inference: `model.eval()`, then inside
`with torch.no_grad():` compute `output = model.forward(img)` (the forward
pass receives the mode flag and the gradient flag, here `false`), then
`ps = torch.exp(output)` is handed to the visualizer together with the image.
Returns the handed distribution and the resulting model state (cell-19 never
restores training mode). -/
def cell19Run {K P ι : Type} (pexp : K → K) (fwd : P → Mode → Bool → ι → List K)
    (img : ι) (s : ModelState P) : List K × ModelState P :=
  let s1 : ModelState P := { s with mode := Mode.evaluation }
  let output := fwd s1.params s1.mode false img
  (output.map pexp, s1)

/-- The mutable state touched by one training-loop iteration: the model
parameters, the accumulated gradients, the most recently computed loss value
and the `running_loss` accumulator. -/
structure TrainState (P G : Type) where
  params : P
  grads : G
  lastLoss : ℚ
  running_loss : ℚ

/-- The external autodiff/optimizer collaborators, abstracted: the zero
gradient, gradient accumulation (PyTorch's `backward` adds into `.grad`), the
loss value and the loss gradient of the current parameters on a batch, and one
optimizer update step. -/
structure Autograd (P G β : Type) where
  zeroGrad : G
  addGrad : G → G → G
  lossFn : P → β → ℚ
  gradFn : P → β → G
  stepFn : P → G → P

/-- `optimizer.zero_grad()`: clear previously accumulated gradients. -/
def optimizerZeroGrad {P G β : Type} (A : Autograd P G β) (s : TrainState P G) : TrainState P G :=
  { s with grads := A.zeroGrad }

/-- `log_ps = model(images); loss = criterion(log_ps, labels)`: the forward
pass and the scalar loss on the current parameters. -/
def forwardAndLoss {P G β : Type} (A : Autograd P G β) (b : β) (s : TrainState P G) :
    TrainState P G :=
  { s with lastLoss := A.lossFn s.params b }

/-- `loss.backward()`: add this batch's gradient into the accumulated
gradients. -/
def lossBackward {P G β : Type} (A : Autograd P G β) (b : β) (s : TrainState P G) :
    TrainState P G :=
  { s with grads := A.addGrad s.grads (A.gradFn s.params b) }

/-- `optimizer.step()`: apply one update using the accumulated gradients. -/
def optimizerStep {P G β : Type} (A : Autograd P G β) (s : TrainState P G) : TrainState P G :=
  { s with params := A.stepFn s.params s.grads }

/-- `running_loss += loss.item()`. -/
def accumulateLoss {P G : Type} (s : TrainState P G) : TrainState P G :=
  { s with running_loss := s.running_loss + s.lastLoss }

/-- One iteration of the training loop body, in the source's order:
`optimizer.zero_grad()`, forward pass and loss, `loss.backward()`,
`optimizer.step()`, `running_loss += loss.item()`. -/
def trainBatchStep {P G β : Type} (A : Autograd P G β) (b : β) (s : TrainState P G) :
    TrainState P G :=
  accumulateLoss (optimizerStep A (lossBackward A b (forwardAndLoss A b (optimizerZeroGrad A s))))

/-- A class-probability row with probability `11/20` at index `k` and `1/20`
elsewhere (a genuine distribution over the 10 classes with top class `k`). -/
def hotRow (k : ℕ) : List ℚ :=
  (List.range 10).map (fun j => if j = k then mkRat 11 20 else mkRat 1 20)

/-- Modelled from the spec: the class-probability rows `ps` of the walkthrough
cell-7 for the first ten examples of the documented fixed input batch.  The
random seed and the untrained model's weights are not in `src` (the notebook
sets no seed; only the recorded cell output is available), so the ten rows are
modelled so that their top-1 classes reproduce the recorded walkthrough output
`[8, 8, 8, 8, 9, 8, 2, 8, 8, 8]`. -/
def cell7Ps : List (List ℚ) :=
  ([8, 8, 8, 8, 9, 8, 2, 8, 8, 8] : List ℕ).map hotRow

/-- The first ten entries of cell-7's `top_class`: the top-1 class per row of
`cell7Ps`. -/
def cell7TopClasses : List ℕ :=
  cell7Ps.map (fun row => topk1Class row)

/-- A concrete forward pass used for concrete evaluations: every example gets
log-probability row `[0, -1]`, so the predicted class is always `0`. -/
def exNet : Unit → List ℚ := fun _ => [0, -1]

/-- A concrete one-example minibatch with true label `1`. -/
def exBatch : Batch Unit := ([()], [1])

/-- A concrete validation source with two identical batches. -/
def exBatches : List (Batch Unit) := [exBatch, exBatch]

/-- A concrete instantiation of the autodiff collaborators over rationals. -/
def exAutograd : Autograd ℚ ℚ ℚ :=
  { zeroGrad := 0
    addGrad := fun a b => a + b
    lossFn := fun p b => p + b
    gradFn := fun p b => p * b
    stepFn := fun p g => p - g }

/-- A concrete training-loop state. -/
def exTrainState : TrainState ℚ ℚ :=
  { params := 1, grads := 5, lastLoss := 0, running_loss := 0 }

/-- A concrete hidden-layer stack for the inference cell: one logit row `[0]`. -/
def exHidden : Unit → Mode → Bool → Unit → List ℝ := fun _ _ _ _ => [0]

/-- A concrete model state in training mode. -/
def exModelState : ModelState Unit := { mode := Mode.training, params := () }

/-- Folding an additive accumulator over a list sums the mapped values. -/
theorem foldl_add_map {β : Type} (f : β → ℚ) (l : List β) :
    ∀ a : ℚ, List.foldl (fun acc b => acc + f b) a l = a + (l.map f).sum := by
  induction l with
  | nil => intro a; simp
  | cons b t ih =>
    intro a
    rw [List.foldl_cons, ih]
    simp [add_assoc]

/-- Cell-13's accumulator equals the sum of the per-batch accuracies. -/
theorem accuracyAccum13_eq_sum {ι : Type} (pexp : ℚ → ℚ) (net : ι → List ℚ)
    (batches : List (Batch ι)) :
    accuracyAccum13 pexp net batches
      = (batches.map (fun b => batchAccuracy pexp net b.1 b.2)).sum := by
  unfold accuracyAccum13
  rw [foldl_add_map]
  simp

/-- First component of cell-17's fold: the accuracy accumulator sums the
per-batch accuracies. -/
theorem validFold17_fst {ι : Type} (pexp : ℚ → ℚ) (net : ι → List ℚ) (l : List (Batch ι)) :
    ∀ a q : ℚ, (List.foldl (validStep17 pexp net) (a, q) l).1
      = a + (l.map (fun b => batchAccuracy pexp net b.1 b.2)).sum := by
  induction l with
  | nil => intros; simp
  | cons b t ih =>
    intro a q
    simp only [List.foldl_cons, validStep17]
    rw [ih]
    simp [add_assoc]

/-- Second component of cell-17's fold: `loss_accum` is overwritten each
iteration, so after the loop it holds the loss of the last batch only. -/
theorem validFold17_snd {ι : Type} (pexp : ℚ → ℚ) (net : ι → List ℚ) :
    ∀ (t : List (Batch ι)) (b : Batch ι) (a q : ℚ),
      (List.foldl (validStep17 pexp net) (a, q) (b :: t)).2
        = nllLoss net ((b :: t).getLast (List.cons_ne_nil b t)).1
            ((b :: t).getLast (List.cons_ne_nil b t)).2 := by
  intro t
  induction t with
  | nil => intro b a q; simp [validStep17]
  | cons c t2 ih =>
    intro b a q
    rw [List.foldl_cons, List.getLast_cons (List.cons_ne_nil c t2)]
    exact ih c _ _

/-- Cell-17's accuracy accumulator equals the sum of per-batch accuracies. -/
theorem validAccums17_fst {ι : Type} (pexp : ℚ → ℚ) (net : ι → List ℚ)
    (batches : List (Batch ι)) :
    (validAccums17 pexp net batches).1
      = (batches.map (fun b => batchAccuracy pexp net b.1 b.2)).sum := by
  unfold validAccums17
  rw [validFold17_fst]
  simp

/-- A per-batch accuracy is non-negative. -/
theorem batchAccuracy_nonneg {ι : Type} (pexp : ℚ → ℚ) (net : ι → List ℚ)
    (images : List ι) (labels : List ℕ) :
    0 ≤ batchAccuracy pexp net images labels := by
  unfold batchAccuracy
  exact div_nonneg (Nat.cast_nonneg _) (Nat.cast_nonneg _)

/-- A per-batch accuracy is at most one. -/
theorem batchAccuracy_le_one {ι : Type} (pexp : ℚ → ℚ) (net : ι → List ℚ)
    (images : List ι) (labels : List ℕ) :
    batchAccuracy pexp net images labels ≤ 1 := by
  unfold batchAccuracy
  rcases Nat.eq_zero_or_pos images.length with h0 | _
  · have himg : images = [] := List.length_eq_zero.mp h0
    subst himg
    simp [batchTopClasses]
  · apply div_le_one_of_le₀
    · have hc : ((batchTopClasses pexp net images).zip labels).countP (fun p => p.1 == p.2)
          ≤ images.length := by
        calc ((batchTopClasses pexp net images).zip labels).countP (fun p => p.1 == p.2)
            ≤ ((batchTopClasses pexp net images).zip labels).length :=
              List.countP_le_length _
          _ ≤ images.length := by
              simp [List.length_zip, batchTopClasses]
      exact_mod_cast hc
    · exact Nat.cast_nonneg _

/-- Running a concatenation of command lists runs them in sequence, threading
the mode and gradient flags. -/
theorem run_append (l1 : List Cmd) :
    ∀ (l2 : List Cmd) (m : Mode) (g : Bool),
      run (l1 ++ l2) m g
        = ((run l1 m g).1 ++ (run l2 (run l1 m g).2.1 (run l1 m g).2.2).1,
           (run l2 (run l1 m g).2.1 (run l1 m g).2.2).2) := by
  induction l1 with
  | nil => intros; simp [run]
  | cons c rest ih =>
    intro l2 m g
    cases c <;> simp [run, ih]

/-- Running `n` batch-processing commands in a fixed mode and gradient state
records `n` identical events and changes nothing. -/
theorem run_replicate_batch (n : ℕ) :
    ∀ (ph : Phase) (m : Mode) (g : Bool),
      run (List.replicate n (Cmd.processBatch ph)) m g
        = (List.replicate n (⟨ph, m, g⟩ : BatchEvent), m, g) := by
  induction n with
  | zero => intros; simp [run]
  | succ k ih => intros; simp [List.replicate_succ, run, ih]

/-- The trace of one cell-13 epoch: training batches are processed with the
incoming mode and gradient tracking on; validation batches with the *same*
mode (cell-13 never toggles the mode flag) and gradient tracking off. -/
theorem run_epoch13 (nT nV : ℕ) (m : Mode) (g : Bool) :
    run (epoch13Cmds nT nV) m g
      = (List.replicate nT (⟨Phase.training, m, g⟩ : BatchEvent)
          ++ List.replicate nV (⟨Phase.validation, m, false⟩ : BatchEvent), m, true) := by
  simp [epoch13Cmds, trainPassCmds, noGradScope, run_append, run_replicate_batch, run]

/-- The trace of one cell-17 epoch: training batches with the incoming mode and
gradient tracking on; validation batches in evaluation mode with gradient
tracking off; the epoch ends in training mode. -/
theorem run_epoch17 (nT nV : ℕ) (m : Mode) (g : Bool) :
    run (epoch17Cmds nT nV) m g
      = (List.replicate nT (⟨Phase.training, m, g⟩ : BatchEvent)
          ++ List.replicate nV (⟨Phase.validation, Mode.evaluation, false⟩ : BatchEvent),
         Mode.training, true) := by
  simp [epoch17Cmds, trainPassCmds, noGradScope, run_append, run_replicate_batch, run]

/-- The trace of the whole cell-13 run from mode `m`: every epoch repeats the
same event block and the mode flag is never changed. -/
theorem run_loop13 (e : ℕ) :
    ∀ (nT nV : ℕ) (m : Mode),
      run (loop13Cmds e nT nV) m true
        = ((List.replicate e
              (List.replicate nT (⟨Phase.training, m, true⟩ : BatchEvent)
                ++ List.replicate nV (⟨Phase.validation, m, false⟩ : BatchEvent))).flatten,
           m, true) := by
  induction e with
  | zero => intros; simp [loop13Cmds, run]
  | succ k ih =>
    intro nT nV m
    have h1 : loop13Cmds (k + 1) nT nV = epoch13Cmds nT nV ++ loop13Cmds k nT nV := by
      simp [loop13Cmds, List.replicate_succ]
    rw [h1, run_append, run_epoch13]
    simp [ih, List.replicate_succ]

/-- The trace of the whole cell-17 run started in training mode: every epoch
repeats the same event block and ends back in training mode. -/
theorem run_loop17 (e : ℕ) :
    ∀ nT nV : ℕ,
      run (loop17Cmds e nT nV) Mode.training true
        = ((List.replicate e
              (List.replicate nT (⟨Phase.training, Mode.training, true⟩ : BatchEvent)
                ++ List.replicate nV
                    (⟨Phase.validation, Mode.evaluation, false⟩ : BatchEvent))).flatten,
           Mode.training, true) := by
  induction e with
  | zero => intros; simp [loop17Cmds, run]
  | succ k ih =>
    intro nT nV
    have h1 : loop17Cmds (k + 1) nT nV = epoch17Cmds nT nV ++ loop17Cmds k nT nV := by
      simp [loop17Cmds, List.replicate_succ]
    rw [h1, run_append, run_epoch17]
    simp [ih, List.replicate_succ]

/-- Membership in the flattened replicated epoch trace reduces to membership
in one epoch block. -/
theorem mem_flatten_replicate {α : Type} {x : α} {e : ℕ} {L : List α}
    (h : x ∈ (List.replicate e L).flatten) : x ∈ L := by
  rcases List.mem_flatten.mp h with ⟨l, hl, hx⟩
  rwa [List.eq_of_mem_replicate hl] at hx

/-- Unfolding equation for `topk1Class` on a non-empty list. -/
theorem topk1Class_cons {K : Type} [LinearOrder K] (x : K) (xs : List K) :
    topk1Class (x :: xs) = if x < xs.getD (topk1Class xs) x then topk1Class xs + 1 else 0 :=
  rfl

/-- The default value of `getD` is irrelevant at an in-bounds index. -/
theorem getD_default_irrel {K : Type} (l : List K) (n : ℕ) (hn : n < l.length) (d1 d2 : K) :
    l.getD n d1 = l.getD n d2 := by
  rw [List.getD_eq_getElem l d1 hn, List.getD_eq_getElem l d2 hn]

/-- `topk1Class` returns an in-bounds index of a maximal entry, and every
earlier index holds a strictly smaller entry (first-index tie-break). -/
theorem topk1Class_spec {K : Type} [LinearOrder K] (d : K) :
    ∀ l : List K, l ≠ [] →
      topk1Class l < l.length
      ∧ (∀ k, k < l.length → l.getD k d ≤ l.getD (topk1Class l) d)
      ∧ (∀ k, k < topk1Class l → l.getD k d < l.getD (topk1Class l) d) := by
  intro l
  induction l with
  | nil => intro h; exact absurd rfl h
  | cons x xs ih =>
    intro _
    cases xs with
    | nil =>
      refine ⟨by simp [topk1Class_cons], ?_, ?_⟩
      · intro k hk
        have hk0 : k = 0 := by
          simpa [topk1Class_cons] using Nat.lt_one_iff.mp (by simpa using hk)
        subst hk0
        simp [topk1Class_cons]
      · intro k hk
        simp [topk1Class_cons] at hk
    | cons y ys =>
      obtain ⟨h1, h2, h3⟩ := ih (List.cons_ne_nil y ys)
      have key : (y :: ys).getD (topk1Class (y :: ys)) x
          = (y :: ys).getD (topk1Class (y :: ys)) d :=
        getD_default_irrel _ _ h1 _ _
      by_cases hcmp : x < (y :: ys).getD (topk1Class (y :: ys)) d
      · have hx : x < (y :: ys).getD (topk1Class (y :: ys)) x := by rw [key]; exact hcmp
        have hval : topk1Class (x :: y :: ys) = topk1Class (y :: ys) + 1 := by
          rw [topk1Class_cons]; exact if_pos hx
        refine ⟨?_, ?_, ?_⟩
        · rw [hval]
          simpa using Nat.succ_lt_succ h1
        · intro k hk
          rw [hval, List.getD_cons_succ]
          cases k with
          | zero => exact le_of_lt (by simpa [List.getD_cons_zero] using hcmp)
          | succ k2 =>
            rw [List.getD_cons_succ]
            exact h2 k2 (by simpa using Nat.lt_of_succ_lt_succ hk)
        · intro k hk
          rw [hval, List.getD_cons_succ]
          rw [hval] at hk
          cases k with
          | zero => simpa [List.getD_cons_zero] using hcmp
          | succ k2 =>
            rw [List.getD_cons_succ]
            exact h3 k2 (Nat.lt_of_succ_lt_succ hk)
      · have hx : ¬ x < (y :: ys).getD (topk1Class (y :: ys)) x := by rw [key]; exact hcmp
        have hval : topk1Class (x :: y :: ys) = 0 := by
          rw [topk1Class_cons]; exact if_neg hx
        refine ⟨?_, ?_, ?_⟩
        · rw [hval]; exact Nat.succ_pos _
        · intro k hk
          rw [hval, List.getD_cons_zero]
          cases k with
          | zero => simp
          | succ k2 =>
            rw [List.getD_cons_succ]
            exact le_trans (h2 k2 (by simpa using Nat.lt_of_succ_lt_succ hk))
              (not_lt.mp hcmp)
        · intro k hk
          rw [hval] at hk
          exact absurd hk (Nat.not_lt_zero k)

/-- Applying a strictly monotone function to every entry does not change the
top-1 index: in particular `topk` after `torch.exp` selects the same class as
`topk` on the log-probabilities. -/
theorem topk1Class_map {K L : Type} [LinearOrder K] [LinearOrder L]
    (f : K → L) (hf : StrictMono f) :
    ∀ l : List K, topk1Class (l.map f) = topk1Class l := by
  intro l
  induction l with
  | nil => rfl
  | cons x xs ih =>
    cases xs with
    | nil => simp [topk1Class_cons]
    | cons y ys =>
      have hj := (topk1Class_spec y (y :: ys) (List.cons_ne_nil y ys)).1
      rw [List.map_cons, topk1Class_cons, topk1Class_cons, ih]
      rw [List.getD_eq_getElem _ _ (by simpa using hj), List.getD_eq_getElem _ _ hj,
        List.getElem_map]
      exact if_congr hf.lt_iff_lt rfl rfl

/-- C3 counterexample: the claim says the mode flag is Evaluation for the
entire validation pass of *every* training-and-validation loop, but the basic
loop (cell-13) never calls `model.eval()`; in an epoch with one training and
one validation batch, started in training mode, its validation batch is
processed with the mode flag still at Training. -/
theorem basic_loop_validation_mode_not_evaluation :
    ¬ (∀ ev ∈ (run (epoch13Cmds 1 1) Mode.training true).1,
        ev.phase = Phase.validation → ev.mode = Mode.evaluation) := by
  decide

/-- C3 (amended): in the extended loop (cell-17) the mode flag is Evaluation
for every validation batch of every epoch, Training for every training batch,
and the run ends in Training mode; in the basic loop (cell-13) the mode flag
is never toggled, so starting from Training it is Training for every batch of
every epoch (including the validation batches) and at the end of the run.
Hence in both loops the flag equals Training at every epoch start and end. -/
theorem mode_flag_discipline (epochs nT nV : ℕ) :
    (∀ ev ∈ (run (loop17Cmds epochs nT nV) Mode.training true).1,
        (ev.phase = Phase.validation → ev.mode = Mode.evaluation)
        ∧ (ev.phase = Phase.training → ev.mode = Mode.training))
    ∧ (run (loop17Cmds epochs nT nV) Mode.training true).2.1 = Mode.training
    ∧ (∀ ev ∈ (run (loop13Cmds epochs nT nV) Mode.training true).1,
        ev.mode = Mode.training)
    ∧ (run (loop13Cmds epochs nT nV) Mode.training true).2.1 = Mode.training := by
  refine ⟨?_, ?_, ?_, ?_⟩
  · intro ev hev
    rw [run_loop17] at hev
    rcases List.mem_append.mp (mem_flatten_replicate hev) with hr | hr <;>
      · rw [List.eq_of_mem_replicate hr]; decide
  · rw [run_loop17]
  · intro ev hev
    rw [run_loop13] at hev
    rcases List.mem_append.mp (mem_flatten_replicate hev) with hr | hr <;>
      · rw [List.eq_of_mem_replicate hr]
  · rw [run_loop13]

/-- C4: in both loops, every validation batch of every epoch is processed with
gradient tracking disabled (the whole validation loop sits inside
`with torch.no_grad():`), every training batch is processed with gradient
tracking enabled (the scope is exited before the next training pass), and the
run ends with gradient tracking enabled. -/
theorem grad_disabled_during_validation (epochs nT nV : ℕ) (m : Mode) :
    (∀ ev ∈ (run (loop13Cmds epochs nT nV) m true).1,
        (ev.phase = Phase.validation → ev.gradOn = false)
        ∧ (ev.phase = Phase.training → ev.gradOn = true))
    ∧ (∀ ev ∈ (run (loop17Cmds epochs nT nV) Mode.training true).1,
        (ev.phase = Phase.validation → ev.gradOn = false)
        ∧ (ev.phase = Phase.training → ev.gradOn = true))
    ∧ (run (loop13Cmds epochs nT nV) m true).2.2 = true
    ∧ (run (loop17Cmds epochs nT nV) Mode.training true).2.2 = true := by
  refine ⟨?_, ?_, ?_, ?_⟩
  · intro ev hev
    rw [run_loop13] at hev
    rcases List.mem_append.mp (mem_flatten_replicate hev) with hr | hr <;>
      · rw [List.eq_of_mem_replicate hr]; simp
  · intro ev hev
    rw [run_loop17] at hev
    rcases List.mem_append.mp (mem_flatten_replicate hev) with hr | hr <;>
      · rw [List.eq_of_mem_replicate hr]; decide
  · rw [run_loop13]
  · rw [run_loop17]

/-- C7: one iteration of the training loop (both cells), executed in the
source's order — `optimizer.zero_grad()`, forward pass, loss, `backward()`,
`optimizer.step()`, `running_loss += loss.item()` — updates the parameters
with exactly this batch's gradient of the pre-step parameters (the gradients
were cleared before `backward`), and accumulates exactly this batch's loss,
evaluated at the pre-step parameters. -/
theorem train_batch_op_order {P G β : Type} (A : Autograd P G β) (b : β) (s : TrainState P G)
    (hzero : ∀ g : G, A.addGrad A.zeroGrad g = g) :
    trainBatchStep A b s
      = { params := A.stepFn s.params (A.gradFn s.params b)
          grads := A.gradFn s.params b
          lastLoss := A.lossFn s.params b
          running_loss := s.running_loss + A.lossFn s.params b } := by
  simp [trainBatchStep, accumulateLoss, optimizerStep, lossBackward, forwardAndLoss,
    optimizerZeroGrad, hzero]

/-- Witness for C7 at a concrete rational instantiation of the autodiff
collaborators. -/
theorem train_batch_op_order_witness :
    (∀ g : ℚ, exAutograd.addGrad exAutograd.zeroGrad g = g)
    ∧ trainBatchStep exAutograd 2 exTrainState
        = { params := exAutograd.stepFn exTrainState.params (exAutograd.gradFn exTrainState.params 2)
            grads := exAutograd.gradFn exTrainState.params 2
            lastLoss := exAutograd.lossFn exTrainState.params 2
            running_loss := exTrainState.running_loss + exAutograd.lossFn exTrainState.params 2 } :=
  ⟨fun g => zero_add g, train_batch_op_order exAutograd 2 exTrainState (fun g => zero_add g)⟩

/-- C8: running cell-17's validation pass twice in a row over the same batch
source, with no training step in between, yields identical accumulators (in
particular identical reported accuracy) and an identical final model state;
the pass never writes the parameters. -/
theorem validation_pass_idempotent {P ι : Type} (pexp : ℚ → ℚ) (fwd : P → Mode → ι → List ℚ)
    (batches : List (Batch ι)) (s : ModelState P) :
    (validPass17 pexp fwd batches ((validPass17 pexp fwd batches s).2)).1
      = (validPass17 pexp fwd batches s).1
    ∧ (validPass17 pexp fwd batches ((validPass17 pexp fwd batches s).2)).2
      = (validPass17 pexp fwd batches s).2
    ∧ ((validPass17 pexp fwd batches s).2).params = s.params :=
  ⟨rfl, rfl, rfl⟩

/-- C9: with an empty validation source the epoch report divides the
accumulators by `len(testloader) = 0`; the source has no guard and no error
path, and in the embedding (where division by zero yields the junk value `0`)
the report silently produces `0` instead of failing with a dedicated error. -/
theorem empty_validation_source_division (ι : Type) (pexp : ℚ → ℚ) (net : ι → List ℚ) :
    (([] : List (Batch ι)).length = 0)
    ∧ printedAccuracy13 pexp net ([] : List (Batch ι))
        = accuracyAccum13 pexp net ([] : List (Batch ι)) / ((0 : ℚ)) * 100
    ∧ printedAccuracy13 pexp net ([] : List (Batch ι)) = 0
    ∧ printedAccuracy17 pexp net ([] : List (Batch ι)) = 0
    ∧ printedLoss17 pexp net ([] : List (Batch ι)) = 0 := by
  refine ⟨rfl, ?_, ?_, ?_, ?_⟩ <;>
    simp [printedAccuracy13, printedAccuracy17, printedLoss17, accuracyAccum13, validAccums17]

/-- C1 counterexample: with two validation batches whose loss is `1`, cell-17
prints `Loss: 50` (`loss_accum / len(testloader) * 100`), which is not the
final batch's loss scaled by 100 (`1 * 100 = 100`). -/
theorem printedLoss17_not_last_loss_times_100 :
    printedLoss17 id exNet exBatches ≠ nllLoss exNet exBatch.1 exBatch.2 * 100 := by
  have h1 : printedLoss17 id exNet exBatches = 50 := by
    norm_num [printedLoss17, validAccums17, validStep17, nllLoss, exNet, exBatch, exBatches]
  have h2 : nllLoss exNet exBatch.1 exBatch.2 * 100 = 100 := by
    norm_num [nllLoss, exNet, exBatch]
  rw [h1, h2]
  norm_num

/-- C1 (amended): the loss value reported at the end of each cell-17 epoch is
the loss of only the final validation batch, divided by the number of
validation batches and scaled by 100 — not the epoch-mean loss — while the
reported accuracy is the epoch mean (sum of per-batch accuracies over the
number of batches), scaled by 100. -/
theorem printedLoss17_last_batch_over_count {ι : Type} (pexp : ℚ → ℚ) (net : ι → List ℚ)
    (batches : List (Batch ι)) (h : batches ≠ []) :
    printedLoss17 pexp net batches
      = nllLoss net (batches.getLast h).1 (batches.getLast h).2 / (batches.length : ℚ) * 100
    ∧ printedAccuracy17 pexp net batches
      = (batches.map (fun b => batchAccuracy pexp net b.1 b.2)).sum / (batches.length : ℚ) * 100 := by
  constructor
  · unfold printedLoss17 validAccums17
    cases batches with
    | nil => exact absurd rfl h
    | cons b t => rw [validFold17_snd]
  · unfold printedAccuracy17
    rw [validAccums17_fst]

/-- Witness for C1's amended theorem on a concrete two-batch source. -/
theorem printedLoss17_last_batch_over_count_witness :
    exBatches ≠ []
    ∧ printedLoss17 id exNet exBatches
        = nllLoss exNet (exBatches.getLast (by decide)).1 (exBatches.getLast (by decide)).2
            / (exBatches.length : ℚ) * 100
    ∧ printedAccuracy17 id exNet exBatches
        = (exBatches.map (fun b => batchAccuracy id exNet b.1 b.2)).sum
            / (exBatches.length : ℚ) * 100 := by
  refine ⟨by decide, ?_, ?_⟩
  · exact (printedLoss17_last_batch_over_count id exNet exBatches (by decide)).1
  · exact (printedLoss17_last_batch_over_count id exNet exBatches (by decide)).2

/-- C2: the accuracy reported at the end of an epoch — in both loops — equals
the sum over validation minibatches of the per-batch accuracy, divided by the
number of validation batches (each per-batch accuracy being the fraction of
examples whose top-1 class of the exponentiated log-probabilities equals the
true label, compared positionally after the reshape; see `batchAccuracy`). -/
theorem reported_accuracy_epoch_mean {ι : Type} (pexp : ℚ → ℚ) (net : ι → List ℚ)
    (batches : List (Batch ι)) (h : batches ≠ []) :
    epochAccuracy13 pexp net batches
      = (batches.map (fun b => batchAccuracy pexp net b.1 b.2)).sum / (batches.length : ℚ)
    ∧ epochAccuracy17 pexp net batches
      = (batches.map (fun b => batchAccuracy pexp net b.1 b.2)).sum / (batches.length : ℚ) := by
  constructor
  · unfold epochAccuracy13
    rw [accuracyAccum13_eq_sum]
  · unfold epochAccuracy17
    rw [validAccums17_fst]

/-- Witness for C2 on a concrete two-batch source. -/
theorem reported_accuracy_epoch_mean_witness :
    exBatches ≠ []
    ∧ epochAccuracy13 id exNet exBatches
        = (exBatches.map (fun b => batchAccuracy id exNet b.1 b.2)).sum / (exBatches.length : ℚ)
    ∧ epochAccuracy17 id exNet exBatches
        = (exBatches.map (fun b => batchAccuracy id exNet b.1 b.2)).sum / (exBatches.length : ℚ) := by
  refine ⟨by decide, ?_, ?_⟩
  · exact (reported_accuracy_epoch_mean id exNet exBatches (by decide)).1
  · exact (reported_accuracy_epoch_mean id exNet exBatches (by decide)).2

/-- C5: for an epoch with a non-empty validation source, the reported accuracy
(as a fraction; the printed value is this times 100 with a percent sign) lies
in the closed interval [0, 1], in both loops. -/
theorem epoch_accuracy_unit_interval {ι : Type} (pexp : ℚ → ℚ) (net : ι → List ℚ)
    (batches : List (Batch ι)) (h : batches ≠ []) :
    0 ≤ epochAccuracy13 pexp net batches ∧ epochAccuracy13 pexp net batches ≤ 1
    ∧ 0 ≤ epochAccuracy17 pexp net batches ∧ epochAccuracy17 pexp net batches ≤ 1 := by
  have heq : epochAccuracy17 pexp net batches = epochAccuracy13 pexp net batches := by
    unfold epochAccuracy17 epochAccuracy13
    rw [validAccums17_fst, accuracyAccum13_eq_sum]
  have hsum0 : 0 ≤ (batches.map (fun b => batchAccuracy pexp net b.1 b.2)).sum := by
    apply List.sum_nonneg
    intro x hx
    rcases List.mem_map.mp hx with ⟨b, _, hb⟩
    exact hb ▸ batchAccuracy_nonneg pexp net b.1 b.2
  have hb1 : ∀ x ∈ batches.map (fun b => batchAccuracy pexp net b.1 b.2), x ≤ (1 : ℚ) := by
    intro x hx
    rcases List.mem_map.mp hx with ⟨b, _, hb⟩
    exact hb ▸ batchAccuracy_le_one pexp net b.1 b.2
  have hsumle : (batches.map (fun b => batchAccuracy pexp net b.1 b.2)).sum
      ≤ (batches.length : ℚ) := by
    have h2 := List.sum_le_card_nsmul _ _ hb1
    simpa using h2
  have h0 : 0 ≤ epochAccuracy13 pexp net batches := by
    unfold epochAccuracy13
    rw [accuracyAccum13_eq_sum]
    exact div_nonneg hsum0 (Nat.cast_nonneg _)
  have h1le : epochAccuracy13 pexp net batches ≤ 1 := by
    unfold epochAccuracy13
    rw [accuracyAccum13_eq_sum]
    exact div_le_one_of_le₀ hsumle (Nat.cast_nonneg _)
  exact ⟨h0, h1le, heq ▸ h0, heq ▸ h1le⟩

/-- Witness for C5 on a concrete two-batch source. -/
theorem epoch_accuracy_unit_interval_witness :
    exBatches ≠ []
    ∧ (0 ≤ epochAccuracy13 id exNet exBatches ∧ epochAccuracy13 id exNet exBatches ≤ 1
       ∧ 0 ≤ epochAccuracy17 id exNet exBatches ∧ epochAccuracy17 id exNet exBatches ≤ 1) :=
  ⟨by decide, epoch_accuracy_unit_interval id exNet exBatches (by decide)⟩

set_option maxRecDepth 10000 in
/-- C6: the top-1 selection applied to the exponentiated model output returns,
for each example, an in-bounds index carrying the maximum value, with every
earlier index strictly smaller (first-index tie-break); since the exponential
is strictly monotone, this is the same index as on the raw log-probabilities.
On the modelled walkthrough probability rows the first ten predicted classes
are `[8, 8, 8, 8, 9, 8, 2, 8, 8, 8]`, as recorded in cell-7's output. -/
theorem topk1_first_max_and_walkthrough (l : List ℚ) (hl : l ≠ []) (pexp : ℚ → ℚ)
    (hm : StrictMono pexp) :
    (topk1Class (l.map pexp) < l.length
     ∧ (∀ k, k < l.length →
          (l.map pexp).getD k 0 ≤ (l.map pexp).getD (topk1Class (l.map pexp)) 0)
     ∧ (∀ k, k < topk1Class (l.map pexp) →
          (l.map pexp).getD k 0 < (l.map pexp).getD (topk1Class (l.map pexp)) 0)
     ∧ topk1Class (l.map pexp) = topk1Class l)
    ∧ cell7TopClasses = [8, 8, 8, 8, 9, 8, 2, 8, 8, 8] := by
  have hl2 : l.map pexp ≠ [] := by simpa using hl
  obtain ⟨s1, s2, s3⟩ := topk1Class_spec (0 : ℚ) (l.map pexp) hl2
  refine ⟨⟨by simpa using s1, ?_, s3, topk1Class_map pexp hm l⟩, by decide⟩
  intro k hk
  exact s2 k (by simpa using hk)

/-- Witness for C6 on a concrete two-entry row with the identity as the
monotone map. -/
theorem topk1_first_max_and_walkthrough_witness :
    ([(1 : ℚ), 2] ≠ [] ∧ StrictMono (id : ℚ → ℚ))
    ∧ ((topk1Class ([(1 : ℚ), 2].map id) < [(1 : ℚ), 2].length
        ∧ (∀ k, k < [(1 : ℚ), 2].length →
            ([(1 : ℚ), 2].map id).getD k 0
              ≤ ([(1 : ℚ), 2].map id).getD (topk1Class ([(1 : ℚ), 2].map id)) 0)
        ∧ (∀ k, k < topk1Class ([(1 : ℚ), 2].map id) →
            ([(1 : ℚ), 2].map id).getD k 0
              < ([(1 : ℚ), 2].map id).getD (topk1Class ([(1 : ℚ), 2].map id)) 0)
        ∧ topk1Class ([(1 : ℚ), 2].map id) = topk1Class [(1 : ℚ), 2])
       ∧ cell7TopClasses = [8, 8, 8, 8, 9, 8, 2, 8, 8, 8]) :=
  ⟨⟨by simp, strictMono_id⟩,
    topk1_first_max_and_walkthrough [(1 : ℚ), 2] (by simp) id strictMono_id⟩

/-- Summing mapped quotients by a common denominator. -/
theorem list_sum_map_div {K : Type} [DivisionRing K] (l : List K) (f : K → K) (c : K) :
    (l.map (fun x => f x / c)).sum = (l.map f).sum / c := by
  induction l with
  | nil => simp
  | cons x t ih => simp [ih, add_div]

/-- C10: cell-19 sets the mode flag to Evaluation, leaves the parameters
untouched, and hands the visualizer exactly the element-wise exponential of
the forward pass's output on the one input (the forward pass being invoked in
evaluation mode with gradient tracking disabled); since the forward pass ends
in `log_softmax`, the handed list is a probability distribution over the
classes: every entry is non-negative and the entries sum to 1. -/
theorem inference_probability_distribution {P ι : Type}
    (hidden : P → Mode → Bool → ι → List ℝ) (img : ι) (s : ModelState P)
    (h : hidden s.params Mode.evaluation false img ≠ []) :
    (cell19Run Real.exp (fun p m g x => log_softmax Real.exp Real.log (hidden p m g x)) img s).2.mode
        = Mode.evaluation
    ∧ (cell19Run Real.exp (fun p m g x => log_softmax Real.exp Real.log (hidden p m g x)) img s).2.params
        = s.params
    ∧ (cell19Run Real.exp (fun p m g x => log_softmax Real.exp Real.log (hidden p m g x)) img s).1
        = (log_softmax Real.exp Real.log (hidden s.params Mode.evaluation false img)).map Real.exp
    ∧ (∀ q ∈ (cell19Run Real.exp (fun p m g x => log_softmax Real.exp Real.log (hidden p m g x)) img s).1,
        0 ≤ q)
    ∧ ((cell19Run Real.exp (fun p m g x => log_softmax Real.exp Real.log (hidden p m g x)) img s).1).sum
        = 1 := by
  have hS : 0 < ((hidden s.params Mode.evaluation false img).map Real.exp).sum := by
    apply List.sum_pos
    · intro x hx
      rcases List.mem_map.mp hx with ⟨a, ha1, ha2⟩
      exact ha2 ▸ Real.exp_pos a
    · simpa using h
  refine ⟨rfl, rfl, rfl, ?_, ?_⟩
  · intro q hq
    have hq2 : q ∈ (log_softmax Real.exp Real.log
        (hidden s.params Mode.evaluation false img)).map Real.exp := hq
    rcases List.mem_map.mp hq2 with ⟨w, hw1, hw2⟩
    exact hw2 ▸ le_of_lt (Real.exp_pos w)
  · show (((hidden s.params Mode.evaluation false img).map
        (fun zi => zi - Real.log (((hidden s.params Mode.evaluation false img).map Real.exp).sum))).map
          Real.exp).sum = 1
    rw [List.map_map]
    have hcomp : (Real.exp ∘ fun zi =>
          zi - Real.log (((hidden s.params Mode.evaluation false img).map Real.exp).sum))
        = fun zi => Real.exp zi
            / (((hidden s.params Mode.evaluation false img).map Real.exp).sum) := by
      funext zi
      simp [Function.comp, Real.exp_sub, Real.exp_log hS]
    rw [hcomp, list_sum_map_div, div_self (ne_of_gt hS)]

/-- Witness for C10 on a concrete one-logit hidden stack. -/
theorem inference_probability_distribution_witness :
    exHidden exModelState.params Mode.evaluation false () ≠ []
    ∧ ((cell19Run Real.exp (fun p m g x => log_softmax Real.exp Real.log (exHidden p m g x)) () exModelState).2.mode
          = Mode.evaluation
       ∧ (cell19Run Real.exp (fun p m g x => log_softmax Real.exp Real.log (exHidden p m g x)) () exModelState).2.params
          = exModelState.params
       ∧ (cell19Run Real.exp (fun p m g x => log_softmax Real.exp Real.log (exHidden p m g x)) () exModelState).1
          = (log_softmax Real.exp Real.log (exHidden exModelState.params Mode.evaluation false ())).map Real.exp
       ∧ (∀ q ∈ (cell19Run Real.exp (fun p m g x => log_softmax Real.exp Real.log (exHidden p m g x)) () exModelState).1,
            0 ≤ q)
       ∧ ((cell19Run Real.exp (fun p m g x => log_softmax Real.exp Real.log (exHidden p m g x)) () exModelState).1).sum
          = 1) :=
  ⟨by simp [exHidden],
    inference_probability_distribution exHidden () exModelState (by simp [exHidden])⟩
